import Mathlib

/-!
Verification of the client-side list reconciliation and interaction core of
the job_search frontend. The definitions below are shallow embeddings of
the relevant source functions:

- frontend/src/components/JobList.jsx : the diff effect (enter/exit/move
  detection), the sort comparator and three-state sort toggle, and the
  drag-and-drop handlers;
- frontend/src/App.jsx : the fetchJobs collection store;
- frontend/src/hooks/useWebSocket.js : the push-channel lifecycle.

JavaScript Sets are modeled as deduplicated lists, Maps as association
lists, and the single-threaded event-loop interleavings as explicit event
traces folded over a state type.
-/

namespace JobSearch

/-- Job record as consumed by JobList.jsx: the identity field, the sortable
columns, and the archived flag. Domain fields irrelevant to reconciliation
are passed through opaquely in the source and omitted here; days_ago is
nullable. -/
structure Job where
  job_id : String
  title : String := ""
  company : String := ""
  location : String := ""
  source : String := ""
  days_ago : Option Int := none
  archived : Bool := false
deriving DecidableEq

/-- Ordered id sequence of a snapshot: jobs.map(j => j.job_id). -/
def jobIds (jobs : List Job) : List String :=
  jobs.map (fun j => j.job_id)

/-- Component state of JobList (the useState/useRef cells that the claims
are about). Initial values mirror the useState initializers. -/
structure ListState where
  sortKey : Option String := none
  sortAsc : Bool := true
  exitingIds : List String := []
  exitingData : List (String × Job) := []
  enteringIds : List String := []
  settledIds : List String := []
  draggedId : Option String := none
  dragOverId : Option String := none
  dragDirection : Option String := none
deriving DecidableEq

/-- The initial JobList state. -/
def initListState : ListState := {}

/-- Per-transition output of the diff effect: which ids were scheduled to
exit this run, which were entrance-animated, which were detected as moved,
and the scroll target among the moved ones. -/
structure DiffResult where
  exiting : List String
  entering : List String
  moved : List String
  primaryMovedId : Option String
deriving DecidableEq

/-- JavaScript Array.prototype.indexOf on id lists: the index of the first
occurrence, or -1 when absent. -/
def jsIndexOf (l : List String) (x : String) : Int :=
  if x ∈ l then (List.indexOf x l : Int) else -1

/-- The removed set of the diff effect: ids of the previous snapshot absent
from the current one ([...prevIds].filter(id => !currentIds.has(id))). -/
def removedIds (prevJobs jobs : List Job) : List String :=
  ((jobIds prevJobs).dedup).filter (fun id => decide (id ∉ (jobIds jobs).dedup))

/-- The added set of the diff effect: ids of the current snapshot absent
from the previous one ([...currentIds].filter(id => !prevIds.has(id))). -/
def addedIds (prevJobs jobs : List Job) : List String :=
  ((jobIds jobs).dedup).filter (fun id => decide (id ∉ (jobIds prevJobs).dedup))

/-- Map.set on the frozen-job association list: overwrite in place when the
key exists, append otherwise (JS Map keeps insertion order on overwrite). -/
def mapSet (m : List (String × Job)) (k : String) (v : Job) : List (String × Job) :=
  if m.any (fun p => p.1 == k) then
    m.map (fun p => if p.1 == k then (k, v) else p)
  else
    m ++ [(k, v)]

/-- Displacement of one enumerated current-order entry, as computed inside
the forEach of the move-detection block: Math.abs(newIdx - prevOrder.indexOf(id)). -/
def pairDisp (prevOrder : List String) (p : Nat × String) : Nat :=
  ((p.1 : Int) - jsIndexOf prevOrder p.2).natAbs

/-- One iteration of the primary-moved forEach: keep the running maximum
displacement and remember the id the first time a strictly larger
displacement is seen. -/
def primStep (prevOrder : List String) (acc : Nat × Option String) (p : Nat × String) :
    Nat × Option String :=
  if pairDisp prevOrder p > acc.1 then (pairDisp prevOrder p, some p.2) else acc

/-- One run of the JobList diff effect (JobList.jsx lines 53-133) when the
jobs prop changes: prevJobs is prevJobsRef.current, s the component state
before the effect. Returns the updated state and the per-transition
DiffResult. The 650/500/450 ms timers only clear the animation sets later
and are display-only; they are not part of this step. The small-removal
branch returns early, exactly as the source does. -/
def diffEffect (prevJobs jobs : List Job) (s : ListState) : ListState × DiffResult :=
  let removed := removedIds prevJobs jobs
  if 3 < removed.length then
    -- bulk removal: clear any stale exit animation data, then fall through
    let s1 : ListState := { s with exitingIds := [], exitingData := [] }
    let added := addedIds prevJobs jobs
    let s2 := if 0 < added.length ∧ 0 < prevJobs.length then { s1 with enteringIds := added } else s1
    -- the move-detection block requires removed.length === 0, false here
    (s2, { exiting := [],
           entering := if 0 < added.length ∧ 0 < prevJobs.length then added else [],
           moved := [], primaryMovedId := none })
  else if 0 < removed.length then
    -- small removal (1..3): freeze the exiting jobs from the previous
    -- snapshot, extend exitingIds, and return early
    let frozen := removed.filterMap
      (fun id => (prevJobs.find? (fun j => j.job_id == id)).map (fun j => (id, j)))
    let s1 : ListState := { s with
      exitingIds := s.exitingIds ++ removed.filter (fun id => decide (id ∉ s.exitingIds)),
      exitingData := frozen.foldl (fun m p => mapSet m p.1 p.2) s.exitingData }
    (s1, { exiting := removed, entering := [], moved := [], primaryMovedId := none })
  else
    let added := addedIds prevJobs jobs
    let s1 := if 0 < added.length ∧ 0 < prevJobs.length then { s with enteringIds := added } else s
    if removed.length = 0 ∧ added.length = 0 ∧ 0 < prevJobs.length then
      let prevOrder := jobIds prevJobs
      let currentOrder := jobIds jobs
      let mp := currentOrder.enum.foldl (primStep prevOrder) (0, none)
      let moved := (currentOrder.enum.filter
        (fun p => decide (¬ prevOrder[p.1]? = some p.2))).map (fun p => p.2)
      let s2 := if 0 < moved.length then { s1 with settledIds := moved } else s1
      (s2, { exiting := [],
             entering := if 0 < added.length ∧ 0 < prevJobs.length then added else [],
             moved := moved, primaryMovedId := mp.2 })
    else
      (s1, { exiting := [],
             entering := if 0 < added.length ∧ 0 < prevJobs.length then added else [],
             moved := [], primaryMovedId := none })

/-- The stale-data cleanup effect (JobList.jsx lines 37-50): drop exiting
ids that no longer have frozen data, and drop frozen data whose id is
neither in the current snapshot nor still marked exiting. -/
def cleanupEffect (jobs : List Job) (s : ListState) : ListState :=
  { s with
    exitingIds := s.exitingIds.filter (fun id => (s.exitingData.lookup id).isSome),
    exitingData := s.exitingData.filter
      (fun p => decide (p.1 ∈ jobIds jobs) || decide (p.1 ∈ s.exitingIds)) }

/-- Reaction of JobList state to a refreshed jobs prop: React runs the two
effects that depend on jobs in declaration order (the cleanup effect, then
the diff effect). No other code runs on a prop change; in particular none
of the drag state cells are written. -/
def onJobsChange (prevJobs jobs : List Job) (s : ListState) : ListState :=
  (diffEffect prevJobs jobs (cleanupEffect jobs s)).1

/-- The three-state sort toggle handleSort (JobList.jsx lines 135-148):
same column cycles ascending, descending, manual order; a different column
resets to ascending. -/
def handleSort (s : ListState) (key : String) : ListState :=
  if s.sortKey = some key then
    if s.sortAsc = false then { s with sortKey := none, sortAsc := true }
    else { s with sortAsc := false }
  else { s with sortKey := some key, sortAsc := true }

/-- String.prototype.localeCompare modeled as codepoint-order comparison
mapped to a JS comparator sign. Locale-sensitive collation is not modeled;
no proved claim exercises this branch (they all run with sortKey null). -/
def localeCompareInt (a b : String) : Int :=
  match compare a b with
  | Ordering.lt => -1
  | Ordering.eq => 0
  | Ordering.gt => 1

/-- Dynamic field access a[sortKey] for the sortable string columns. -/
def jobField (j : Job) (k : String) : String :=
  if k = "title" then j.title
  else if k = "company" then j.company
  else if k = "location" then j.location
  else if k = "source" then j.source
  else ""

/-- The sortedJobs comparator (JobList.jsx lines 156-181), as a sign-valued
JS comparator. Exiting rows always sort to the end; a null sortKey compares
everything equal (manual order); days_ago compares numerically with null
coalesced to Infinity (Infinity - Infinity is NaN, which Array.prototype.sort
treats as 0); other columns compare by localeCompare on the field. -/
def cmpJobs (exitingIds : List String) (sortKey : Option String) (sortAsc : Bool)
    (a b : Job) : Int :=
  let aExiting := a.job_id ∈ exitingIds
  let bExiting := b.job_id ∈ exitingIds
  if aExiting ∧ ¬ bExiting then 1
  else if ¬ aExiting ∧ bExiting then -1
  else if aExiting ∧ bExiting then 0
  else
    match sortKey with
    | none => 0
    | some k =>
      if k = "days_ago" then
        let c : Int :=
          match a.days_ago, b.days_ago with
          | some x, some y => x - y
          | some _, none => -1
          | none, some _ => 1
          | none, none => 0
        if sortAsc then c else -c
      else
        let c := localeCompareInt (jobField a k) (jobField b k)
        if sortAsc then c else -c

/-- Stable insertion of x into an already sorted list: x is placed before
the first element it does not strictly come after. -/
def orderedInsert (cmp : Job → Job → Int) (x : Job) : List Job → List Job
  | [] => [x]
  | y :: ys => if cmp x y ≤ 0 then x :: y :: ys else y :: orderedInsert cmp x ys

/-- Stable sort modeling [...allJobs].sort(comparator): ES2019 requires
Array.prototype.sort to be stable, and for a consistent comparator the
stable result is unique, so insertion sort realizes it. -/
def stableSort (cmp : Job → Job → Int) : List Job → List Job
  | [] => []
  | x :: xs => orderedInsert cmp x (stableSort cmp xs)

/-- The exiting rows kept in the DOM during their exit animation:
[...exitingIds].map(id => exitingJobsDataRef.current.get(id)).filter(Boolean). -/
def exitingJobsOf (s : ListState) : List Job :=
  s.exitingIds.filterMap (fun id => s.exitingData.lookup id)

/-- The rendered row order sortedJobs: current jobs plus frozen exiting
jobs, sorted by the comparator. -/
def sortedJobs (jobs : List Job) (s : ListState) : List Job :=
  stableSort (cmpJobs s.exitingIds s.sortKey s.sortAsc) (jobs ++ exitingJobsOf s)

/-- The displayed order used by the drag handlers: sortedJobs minus the
exiting rows, projected to ids. -/
def displayedIdsOf (jobs : List Job) (s : ListState) : List String :=
  ((sortedJobs jobs s).filter (fun j => decide (j.job_id ∉ s.exitingIds))).map
    (fun j => j.job_id)

/-- JavaScript Array.prototype.findIndex on job lists: first matching
index, or -1. -/
def jsFindIndex (l : List Job) (q : Job → Bool) : Int :=
  match l.findIdx? q with
  | some i => (i : Int)
  | none => -1

/-- handleDragStart (JobList.jsx lines 199-203): record the dragged id. -/
def handleDragStart (s : ListState) (jobId : String) : ListState :=
  { s with draggedId := some jobId }

/-- handleDragOver (JobList.jsx lines 205-221): update the hovered id and
recompute the drop direction from positions in the displayed order. -/
def handleDragOver (jobs : List Job) (s : ListState) (jobId : String) : ListState :=
  let newOverId : Option String := if s.draggedId = some jobId then none else some jobId
  if s.dragOverId = newOverId then s
  else
    let s1 := { s with dragOverId := newOverId }
    match newOverId, s.draggedId with
    | some overId, some dId =>
      let displayedJobs := (sortedJobs jobs s).filter
        (fun j => decide (j.job_id ∉ s.exitingIds))
      let fromIdx := jsFindIndex displayedJobs (fun j => j.job_id == dId)
      let toIdx := jsFindIndex displayedJobs (fun j => j.job_id == overId)
      { s1 with dragDirection := some (if toIdx > fromIdx then "down" else "up") }
    | _, _ => { s1 with dragDirection := none }

/-- handleDrop (JobList.jsx lines 223-245): when a drag is active, the
target differs from the dragged id, and both are found in the displayed
order, splice the dragged id out and back in at the target index, emit the
new order as the reorder command, reset the column sort to manual order and
settle the dragged row; in every case clear the drag state afterwards.
The first component is the order passed to onReorder (none when no command
is issued). -/
def handleDrop (jobs : List Job) (s : ListState) (targetId : String) :
    Option (List String) × ListState :=
  let step : Option (List String) × ListState :=
    match s.draggedId with
    | some dId =>
      if dId ≠ targetId then
        let ids := displayedIdsOf jobs s
        let fromIdx := jsIndexOf ids dId
        let toIdx := jsIndexOf ids targetId
        if fromIdx ≠ -1 ∧ toIdx ≠ -1 then
          let newIds := (ids.eraseIdx fromIdx.toNat).insertIdx toIdx.toNat dId
          (some newIds, { s with sortKey := none, settledIds := [dId] })
        else (none, s)
      else (none, s)
    | none => (none, s)
  (step.1, { step.2 with draggedId := none, dragOverId := none, dragDirection := none })

/-- handleDragEnd (JobList.jsx lines 247-251): unconditionally clear the
drag state. -/
def handleDragEnd (s : ListState) : ListState :=
  { s with draggedId := none, dragOverId := none, dragDirection := none }

/-- Parsed body of a /api/jobs response; data.jobs may be missing. -/
structure JobsResponse where
  jobs : Option (List Job)
deriving DecidableEq

/-- Failure modes of one refresh: network failure of fetch, or a parse
error thrown by res.json(). -/
inductive FetchError
  | network
  | parse
deriving DecidableEq

/-- Completion of one fetchJobs call (App.jsx lines 59-67): on success the
jobs state is replaced by data.jobs || []; on failure the catch block logs
the error and leaves the state untouched, and nothing is rethrown. -/
def applyFetchResult (jobsState : List Job) (r : Except FetchError JobsResponse) :
    List Job :=
  match r with
  | Except.ok data => data.jobs.getD []
  | Except.error _ => jobsState

/-- A batch of fetchJobs completions applied in completion order. Each
entry is tagged with the issue sequence number of its request; fetchJobs
keeps no sequence counter, so the store ignores the tag - the model makes
that absence explicit. -/
def runFetchCompletions (init : List Job)
    (rs : List (Nat × Except FetchError JobsResponse)) : List Job :=
  rs.foldl (fun st r => applyFetchResult st r.2) init

/-- Observable state of one useWebSocket instance (useWebSocket.js):
whether a socket object is open, whether a close event is queued for
delivery to the still-attached onclose handler, whether a reconnect
timeout is pending, whether the effect cleanup has run, and how many
sockets were constructed (and whether any after cleanup). -/
structure WSState where
  wsAlive : Bool
  closeEventPending : Bool
  pendingReconnect : Bool
  cleanedUp : Bool
  connectionsOpened : Nat
  openedAfterCleanup : Bool
deriving DecidableEq

/-- State before the effect body runs. -/
def initWS : WSState :=
  { wsAlive := false, closeEventPending := false, pendingReconnect := false,
    cleanedUp := false, connectionsOpened := 0, openedAfterCleanup := false }

/-- The connect closure (useWebSocket.js lines 17-51): construct a new
WebSocket and install its handlers. Handlers are never detached anywhere
in the hook. -/
def wsConnect (s : WSState) : WSState :=
  { s with wsAlive := true,
           connectionsOpened := s.connectionsOpened + 1,
           openedAfterCleanup := s.openedAfterCleanup || s.cleanedUp }

/-- Event-loop events relevant to the hook lifecycle. -/
inductive WSEvent
  | mount
  | unmount
  | serverDisconnect
  | closeEvent
  | reconnectTimerFires
deriving DecidableEq

/-- One event-loop step of the hook. mount runs connect(). unmount runs the
effect cleanup (useWebSocket.js lines 55-62): clearTimeout on a pending
reconnect, then wsRef.current.close(), whose close event is delivered
asynchronously to the still-attached onclose. serverDisconnect closes an
open socket from the network side. closeEvent delivers a queued close event
to onclose (useWebSocket.js lines 38-41), which schedules a reconnect after
3 seconds. reconnectTimerFires runs a pending reconnect callback, which is
connect(). -/
def wsStep (s : WSState) : WSEvent → WSState
  | WSEvent.mount => wsConnect s
  | WSEvent.unmount =>
    let s1 := { s with pendingReconnect := false, cleanedUp := true }
    if s1.wsAlive then { s1 with wsAlive := false, closeEventPending := true } else s1
  | WSEvent.serverDisconnect =>
    if s.wsAlive then { s with wsAlive := false, closeEventPending := true } else s
  | WSEvent.closeEvent =>
    if s.closeEventPending then
      { s with closeEventPending := false, pendingReconnect := true }
    else s
  | WSEvent.reconnectTimerFires =>
    if s.pendingReconnect then wsConnect { s with pendingReconnect := false } else s

/-- Run the hook lifecycle over an event trace. -/
def runWS (evs : List WSEvent) : WSState := evs.foldl wsStep initWS

/-- Concrete jobs used by witnesses and counterexamples. -/
def jA : Job := { job_id := "a", title := "Job A" }

def jB : Job := { job_id := "b", title := "Job B" }

def jC : Job := { job_id := "c", title := "Job C" }

def jD : Job := { job_id := "d", title := "Job D" }

def jE : Job := { job_id := "e", title := "Job E" }

/-- In every branch of the diff effect at least one of the exiting and
entering outputs is empty: the small-removal branch returns before the
entering computation, and the other branches remove nothing. -/
theorem diff_exiting_or_entering_nil (prevJobs jobs : List Job) (s : ListState) :
    (diffEffect prevJobs jobs s).2.exiting = [] ∨
      (diffEffect prevJobs jobs s).2.entering = [] := by
  simp only [diffEffect]
  split_ifs <;> first | exact Or.inl rfl | exact Or.inr rfl

/-- C3: for every pair of snapshots and any component state, the diff
produced for that transition never places an id in both the entering and
the exiting set. -/
theorem C3_enter_exit_disjoint (prevJobs jobs : List Job) (s : ListState) (id : String)
    (h : id ∈ (diffEffect prevJobs jobs s).2.exiting) :
    id ∉ (diffEffect prevJobs jobs s).2.entering := by
  rcases diff_exiting_or_entering_nil prevJobs jobs s with h0 | h0
  · rw [h0] at h
    exact absurd h (List.not_mem_nil id)
  · rw [h0]
    exact List.not_mem_nil id

/-- C3 witness: removing job a from snapshot [a] puts a in exiting, and the
theorem yields that a is not in entering. -/
theorem C3_witness :
    "a" ∈ (diffEffect [jA] [] initListState).2.exiting ∧
      "a" ∉ (diffEffect [jA] [] initListState).2.entering :=
  ⟨by decide, C3_enter_exit_disjoint [jA] [] initListState "a" (by decide)⟩

/-- C2: when more than 3 ids disappear between snapshots, the diff emits an
empty exiting set and clears the exiting-id state and the frozen exit data
(bulk-removal suppression). -/
theorem C2_bulk_removal_suppression (prevJobs jobs : List Job) (s : ListState)
    (h : 3 < (removedIds prevJobs jobs).length) :
    (diffEffect prevJobs jobs s).2.exiting = [] ∧
      (diffEffect prevJobs jobs s).1.exitingIds = [] ∧
      (diffEffect prevJobs jobs s).1.exitingData = [] := by
  refine ⟨?_, ?_, ?_⟩ <;>
    · simp only [diffEffect]
      rw [if_pos h]
      try (split <;> rfl)

/-- C2 witness: dropping four jobs at once is suppressed. -/
theorem C2_witness :
    3 < (removedIds [jA, jB, jC, jD] []).length ∧
      ((diffEffect [jA, jB, jC, jD] [] initListState).2.exiting = [] ∧
        (diffEffect [jA, jB, jC, jD] [] initListState).1.exitingIds = [] ∧
        (diffEffect [jA, jB, jC, jD] [] initListState).1.exitingData = []) :=
  ⟨by decide, C2_bulk_removal_suppression [jA, jB, jC, jD] [] initListState (by decide)⟩

/-- C8: a refresh completion that failed (network or parse error) leaves
the previously held snapshot unchanged, both as a single step and inside
any completion trace; the catch block swallows the error, so nothing
propagates to rendering. -/
theorem C8_failed_refresh_retains (jobsState : List Job) (e : FetchError)
    (init : List Job) (pre post : List (Nat × Except FetchError JobsResponse)) (n : Nat) :
    applyFetchResult jobsState (Except.error e) = jobsState ∧
      runFetchCompletions init (pre ++ (n, Except.error e) :: post) =
        runFetchCompletions init (pre ++ post) := by
  constructor
  · rfl
  · simp [runFetchCompletions, List.foldl_append, applyFetchResult]

/-- C1 counterexample: request 1 is issued first but its response completes
after request 2's. The claim says the store must then reflect request 2's
result [jA]; the code applies responses in completion order with no
sequence guard, so the store ends at request 1's result [jB]. -/
theorem C1_counterexample :
    runFetchCompletions []
        [(2, Except.ok { jobs := some [jA] }), (1, Except.ok { jobs := some [jB] })] =
      [jB] ∧ ([jB] : List Job) ≠ [jA] := by
  decide

/-- C1 amended: fetchJobs keeps no request sequence number and discards
nothing; the snapshot after a batch of completions is the result of
whichever successful response completed last, regardless of issue order. -/
theorem C1_last_completion_wins (init : List Job)
    (rs : List (Nat × Except FetchError JobsResponse)) (n : Nat) (data : JobsResponse) :
    runFetchCompletions init (rs ++ [(n, Except.ok data)]) = data.jobs.getD [] := by
  simp [runFetchCompletions, List.foldl_append, applyFetchResult]

/-- C7: the failing trace. After mount and unmount (the cleanup clears the
pending timeout and calls close()), the closing socket's close event is
still delivered to the attached onclose handler, which schedules a fresh
reconnect; when it fires, a second WebSocket is constructed after teardown.
So a reconnect timer is pending after cleanup and a zombie connection
outlives its owner. -/
theorem C7_zombie_reconnect :
    (runWS [WSEvent.mount, WSEvent.unmount, WSEvent.closeEvent]).pendingReconnect = true ∧
      (runWS [WSEvent.mount, WSEvent.unmount, WSEvent.closeEvent]).cleanedUp = true ∧
      (runWS [WSEvent.mount, WSEvent.unmount, WSEvent.closeEvent,
          WSEvent.reconnectTimerFires]).connectionsOpened = 2 ∧
      (runWS [WSEvent.mount, WSEvent.unmount, WSEvent.closeEvent,
          WSEvent.reconnectTimerFires]).openedAfterCleanup = true := by
  decide

/-- Entering output of the diff effect outside the small-removal branch. -/
theorem diffEffect_entering (prevJobs jobs : List Job) (s : ListState)
    (h : ¬ (0 < (removedIds prevJobs jobs).length ∧ (removedIds prevJobs jobs).length ≤ 3)) :
    (diffEffect prevJobs jobs s).2.entering =
      if 0 < (addedIds prevJobs jobs).length ∧ 0 < prevJobs.length
      then addedIds prevJobs jobs else [] := by
  simp only [diffEffect]
  split_ifs <;> first | rfl | (exact absurd ⟨by omega, by omega⟩ h)

/-- C10 corrected: with a small removal (1 to 3 ids) the effect returns
early, so the entering ids are neither computed nor animated even though
the previous snapshot was non-empty. Here job a is removed while job c is
added: the produced entering set is empty although c is in current minus
previous and the previous snapshot was non-empty. -/
theorem C10_counterexample :
    (diffEffect [jA, jB] [jB, jC] initListState).2.entering = [] ∧
      "c" ∈ jobIds [jB, jC] ∧ "c" ∉ jobIds [jA, jB] ∧
      0 < ([jA, jB] : List Job).length := by
  decide

/-- C10 amended: in transitions without a small removal (no removals, or a
bulk removal of more than 3), the entering set is exactly the ids present
in current but not in previous, and it is entrance-animated exactly when
the previous snapshot was non-empty. -/
theorem C10_entering_no_small_removal (prevJobs jobs : List Job) (s : ListState)
    (h : (removedIds prevJobs jobs).length = 0 ∨ 3 < (removedIds prevJobs jobs).length) :
    (diffEffect prevJobs jobs s).2.entering =
        (if 0 < prevJobs.length then addedIds prevJobs jobs else []) ∧
      (∀ id, id ∈ addedIds prevJobs jobs ↔
        (id ∈ jobIds jobs ∧ id ∉ jobIds prevJobs)) := by
  constructor
  · rw [diffEffect_entering prevJobs jobs s (by omega)]
    by_cases hA : 0 < (addedIds prevJobs jobs).length
    · simp [hA]
    · have hnil : addedIds prevJobs jobs = [] := by
        cases hE : addedIds prevJobs jobs with
        | nil => rfl
        | cons x xs => rw [hE] at hA; simp at hA
      simp [hA, hnil]
  · intro id
    simp [addedIds, List.mem_filter, List.mem_dedup]

/-- C10 witness: adding job b to the non-empty snapshot [a] produces
entering = [b], the ids added being exactly current minus previous. -/
theorem C10_witness :
    ((removedIds [jA] [jA, jB]).length = 0 ∨ 3 < (removedIds [jA] [jA, jB]).length) ∧
      ((diffEffect [jA] [jA, jB] initListState).2.entering =
          (if 0 < ([jA] : List Job).length then addedIds [jA] [jA, jB] else []) ∧
        (∀ id, id ∈ addedIds [jA] [jA, jB] ↔
          (id ∈ jobIds [jA, jB] ∧ id ∉ jobIds [jA]))) :=
  ⟨by decide, C10_entering_no_small_removal [jA] [jA, jB] initListState (by decide)⟩

/-- A state mid-drag on job a, everything else initial. -/
def sDragA : ListState := { draggedId := some "a" }

/-- Neither effect that runs on a jobs change writes the drag cells. -/
theorem onJobsChange_draggedId (prevJobs jobs : List Job) (s : ListState) :
    (onJobsChange prevJobs jobs s).draggedId = s.draggedId := by
  show (diffEffect prevJobs jobs (cleanupEffect jobs s)).1.draggedId = s.draggedId
  have hclean : (cleanupEffect jobs s).draggedId = s.draggedId := rfl
  rw [← hclean]
  generalize cleanupEffect jobs s = t
  simp only [diffEffect]
  split_ifs <;> rfl

/-- jsIndexOf is -1 exactly on absent ids. -/
theorem jsIndexOf_of_not_mem {l : List String} {x : String} (h : x ∉ l) :
    jsIndexOf l x = -1 := by
  simp [jsIndexOf, h]

/-- jsIndexOf agrees with indexOf on present ids. -/
theorem jsIndexOf_of_mem {l : List String} {x : String} (h : x ∈ l) :
    jsIndexOf l x = (List.indexOf x l : Int) := by
  simp [jsIndexOf, h]

/-- A drop whose dragged id is no longer in the displayed order issues no
command, and the drag state is cleared afterwards in every case. -/
theorem handleDrop_tolerates_missing (jobs : List Job) (s : ListState)
    (dId targetId : String) (hd : s.draggedId = some dId)
    (habs : dId ∉ displayedIdsOf jobs s) :
    (handleDrop jobs s targetId).1 = none ∧
      (handleDrop jobs s targetId).2.draggedId = none := by
  constructor
  · simp only [handleDrop, hd]
    by_cases he : dId = targetId
    · simp [he]
    · simp [he, jsIndexOf_of_not_mem habs]
  · rfl

/-- C6 counterexample: with job a mid-drag, a refresh that removes a from
the snapshot leaves draggedId untouched - the drag state is not forcibly
reset. -/
theorem C6_counterexample :
    (onJobsChange [jA, jB] [jB] sDragA).draggedId = some "a" ∧ "a" ∉ jobIds [jB] := by
  decide

/-- C6 amended: an externally triggered refresh never resets the drag
state, even when it removes the dragged id; but every controller operation
tolerates the dragged id being absent from the new snapshot without
throwing: drop issues no command and clears the drag state, dragOver never
touches draggedId, and endDrag unconditionally clears it. -/
theorem C6_drag_survives_refresh (prevJobs jobs : List Job) (s : ListState)
    (dId targetId : String) (hd : s.draggedId = some dId)
    (habs : dId ∉ displayedIdsOf jobs s) :
    (onJobsChange prevJobs jobs s).draggedId = s.draggedId ∧
      (handleDrop jobs s targetId).1 = none ∧
      (handleDrop jobs s targetId).2.draggedId = none ∧
      (handleDragOver jobs s targetId).draggedId = s.draggedId ∧
      (handleDragEnd s).draggedId = none := by
  obtain ⟨hc1, hc2⟩ := handleDrop_tolerates_missing jobs s dId targetId hd habs
  refine ⟨onJobsChange_draggedId prevJobs jobs s, hc1, hc2, ?_, rfl⟩
  simp only [handleDragOver]
  repeat' split
  all_goals rfl

/-- C6 witness of the amended statement at a concrete mid-drag state whose
dragged job a was removed by the refresh. -/
theorem C6_witness :
    (sDragA.draggedId = some "a" ∧ "a" ∉ displayedIdsOf [jB] sDragA) ∧
      ((onJobsChange [jA, jB] [jB] sDragA).draggedId = sDragA.draggedId ∧
        (handleDrop [jB] sDragA "b").1 = none ∧
        (handleDrop [jB] sDragA "b").2.draggedId = none ∧
        (handleDragOver [jB] sDragA "b").draggedId = sDragA.draggedId ∧
        (handleDragEnd sDragA).draggedId = none) :=
  ⟨⟨rfl, by decide⟩, C6_drag_survives_refresh [jA, jB] [jB] sDragA "a" "b" rfl (by decide)⟩

/-- C5: drop(targetId) during a drag of dId issues no reorder command when
target equals the dragged id or either id is missing from the displayed
order; otherwise the issued order is the displayed order with the dragged
id removed and reinserted at the target id's displayed index. -/
theorem C5_drop_reorder (jobs : List Job) (s : ListState) (targetId dId : String)
    (hd : s.draggedId = some dId) :
    (dId = targetId → (handleDrop jobs s targetId).1 = none) ∧
      ((dId ∉ displayedIdsOf jobs s ∨ targetId ∉ displayedIdsOf jobs s) →
        (handleDrop jobs s targetId).1 = none) ∧
      (dId ≠ targetId → dId ∈ displayedIdsOf jobs s → targetId ∈ displayedIdsOf jobs s →
        (handleDrop jobs s targetId).1 =
          some (((displayedIdsOf jobs s).eraseIdx
              (List.indexOf dId (displayedIdsOf jobs s))).insertIdx
            (List.indexOf targetId (displayedIdsOf jobs s)) dId)) := by
  refine ⟨?_, ?_, ?_⟩
  · intro he
    simp [handleDrop, hd, he]
  · intro habs
    simp only [handleDrop, hd]
    by_cases he : dId = targetId
    · simp [he]
    · rcases habs with h | h <;> simp [he, jsIndexOf_of_not_mem h]
  · intro hne h1 h2
    simp only [handleDrop, hd]
    rw [if_pos hne]
    rw [jsIndexOf_of_mem h1, jsIndexOf_of_mem h2]
    have hfrom : ((List.indexOf dId (displayedIdsOf jobs s) : Int)) ≠ -1 := by
      have := Int.natCast_nonneg (List.indexOf dId (displayedIdsOf jobs s))
      omega
    have hto : ((List.indexOf targetId (displayedIdsOf jobs s) : Int)) ≠ -1 := by
      have := Int.natCast_nonneg (List.indexOf targetId (displayedIdsOf jobs s))
      omega
    rw [if_pos ⟨hfrom, hto⟩]
    simp

/-- A state mid-drag on job a with no sort and nothing exiting, so the
displayed order is the snapshot order. -/
def sDrag4 : ListState := { draggedId := some "a" }

/-- C5 witness: on displayed order [a, b, c, d], dragging a onto c issues
the order [b, c, a, d]. -/
theorem C5_witness :
    sDrag4.draggedId = some "a" ∧
      (handleDrop [jA, jB, jC, jD] sDrag4 "c").1 = some ["b", "c", "a", "d"] :=
  ⟨rfl, by
    have h := (C5_drop_reorder [jA, jB, jC, jD] sDrag4 "c" "a" rfl).2.2
      (by decide) (by decide) (by decide)
    rw [h]
    decide⟩

/-- With nothing exiting and a null sortKey the comparator compares
everything equal. -/
theorem cmpJobs_manual (asc : Bool) (a b : Job) : cmpJobs [] none asc a b = 0 := by
  simp [cmpJobs]

/-- Inserting under an everywhere-zero comparator puts the element in
front. -/
theorem orderedInsert_zero (cmp : Job → Job → Int) (h : ∀ a b, cmp a b = 0)
    (x : Job) (l : List Job) : orderedInsert cmp x l = x :: l := by
  cases l with
  | nil => rfl
  | cons y ys => simp [orderedInsert, h x y]

/-- A stable sort under an everywhere-zero comparator is the identity. -/
theorem stableSort_zero (cmp : Job → Job → Int) (h : ∀ a b, cmp a b = 0) :
    ∀ l : List Job, stableSort cmp l = l := by
  intro l
  induction l with
  | nil => rfl
  | cons x xs ih => rw [stableSort, ih, orderedInsert_zero cmp h]

/-- With no active sort key and no exiting rows, the rendered order is the
snapshot order. -/
theorem sortedJobs_manual (jobs : List Job) (s : ListState)
    (h1 : s.sortKey = none) (h2 : s.exitingIds = []) : sortedJobs jobs s = jobs := by
  have hex : exitingJobsOf s = [] := by simp [exitingJobsOf, h2]
  rw [sortedJobs, hex, List.append_nil, h1, h2]
  exact stableSort_zero _ (cmpJobs_manual s.sortAsc) jobs

/-- C9: activating a column not currently sorted cycles the state through
ascending, then descending, then no sort; after the third activation the
rendered order equals the snapshot order (given nothing is exiting). A
different column always lands on ascending, which the first conjunct
states for an arbitrary prior state with another sort key. -/
theorem C9_sort_cycle (s : ListState) (k : String) (jobs : List Job)
    (hk : s.sortKey ≠ some k) (hex : s.exitingIds = []) :
    (handleSort s k).sortKey = some k ∧ (handleSort s k).sortAsc = true ∧
      (handleSort (handleSort s k) k).sortKey = some k ∧
      (handleSort (handleSort s k) k).sortAsc = false ∧
      (handleSort (handleSort (handleSort s k) k) k).sortKey = none ∧
      (handleSort (handleSort (handleSort s k) k) k).sortAsc = true ∧
      sortedJobs jobs (handleSort (handleSort (handleSort s k) k) k) = jobs := by
  have h1 : handleSort s k = { s with sortKey := some k, sortAsc := true } := by
    rw [handleSort, if_neg hk]
  have h2 : handleSort { s with sortKey := some k, sortAsc := true } k =
      { s with sortKey := some k, sortAsc := false } := by
    rw [handleSort]
    simp
  have h3 : handleSort { s with sortKey := some k, sortAsc := false } k =
      { s with sortKey := none, sortAsc := true } := by
    rw [handleSort]
    simp
  rw [h1, h2, h3]
  refine ⟨rfl, rfl, rfl, rfl, rfl, rfl, ?_⟩
  exact sortedJobs_manual jobs _ rfl hex

/-- C9 witness: three clicks on the title column starting from the initial
state land back on manual order, and the rendered order is the snapshot
order [b, a]. -/
theorem C9_witness :
    (initListState.sortKey ≠ some "title" ∧ initListState.exitingIds = []) ∧
      ((handleSort initListState "title").sortKey = some "title" ∧
        (handleSort initListState "title").sortAsc = true ∧
        (handleSort (handleSort initListState "title") "title").sortKey = some "title" ∧
        (handleSort (handleSort initListState "title") "title").sortAsc = false ∧
        (handleSort (handleSort (handleSort initListState "title") "title")
            "title").sortKey = none ∧
        (handleSort (handleSort (handleSort initListState "title") "title")
            "title").sortAsc = true ∧
        sortedJobs [jB, jA]
            (handleSort (handleSort (handleSort initListState "title") "title") "title") =
          [jB, jA]) :=
  ⟨⟨by decide, rfl⟩, C9_sort_cycle initListState "title" [jB, jA] (by decide) rfl⟩

/-- Maximum displacement over a list of enumerated entries (0 when empty),
the value the maxMove accumulator of the forEach reaches. -/
def maxPairDisp (prevOrder : List String) (l : List (Nat × String)) : Nat :=
  l.foldr (fun p acc => max (pairDisp prevOrder p) acc) 0

/-- Index displacement of an id between two orders containing it:
abs(newIndex - oldIndex) stated through indexOf. -/
def displacement (prevOrder currOrder : List String) (id : String) : Nat :=
  ((List.indexOf id currOrder : Int) - (List.indexOf id prevOrder : Int)).natAbs

theorem maxPairDisp_cons (prevOrder : List String) (x : Nat × String)
    (xs : List (Nat × String)) :
    maxPairDisp prevOrder (x :: xs) =
      max (pairDisp prevOrder x) (maxPairDisp prevOrder xs) := rfl

theorem le_maxPairDisp (prevOrder : List String) {p : Nat × String}
    {l : List (Nat × String)} (h : p ∈ l) :
    pairDisp prevOrder p ≤ maxPairDisp prevOrder l := by
  induction l with
  | nil => cases h
  | cons x xs ih =>
    rw [maxPairDisp_cons]
    rcases List.mem_cons.mp h with rfl | hxs
    · exact Nat.le_max_left _ _
    · exact le_trans (ih hxs) (Nat.le_max_right _ _)

theorem maxPairDisp_attained (prevOrder : List String) :
    ∀ l : List (Nat × String), l ≠ [] →
      ∃ p ∈ l, pairDisp prevOrder p = maxPairDisp prevOrder l := by
  intro l hl
  induction l with
  | nil => exact absurd rfl hl
  | cons x xs ih =>
    cases xs with
    | nil =>
      refine ⟨x, List.mem_cons_self x [], ?_⟩
      rw [maxPairDisp_cons]
      simp [maxPairDisp]
    | cons y ys =>
      obtain ⟨p, hp, hd⟩ := ih (List.cons_ne_nil y ys)
      rw [maxPairDisp_cons]
      rcases Nat.le_total (pairDisp prevOrder x) (maxPairDisp prevOrder (y :: ys)) with hle | hle
      · exact ⟨p, List.mem_cons_of_mem x hp, by rw [hd, Nat.max_eq_right hle]⟩
      · exact ⟨x, List.mem_cons_self x _, by rw [Nat.max_eq_left hle]⟩

/-- Invariant of the primary-moved forEach: folding primStep computes the
running maximum displacement, and the remembered id is the first entry
attaining the overall maximum whenever that maximum strictly exceeds the
starting accumulator. -/
theorem foldl_primStep_eq (prevOrder : List String) :
    ∀ (l : List (Nat × String)) (m0 : Nat) (p0 : Option String),
      l.foldl (primStep prevOrder) (m0, p0) =
        (max m0 (maxPairDisp prevOrder l),
          if m0 < maxPairDisp prevOrder l then
            (l.find? (fun p => pairDisp prevOrder p == maxPairDisp prevOrder l)).map
              (fun p => p.2)
          else p0) := by
  intro l
  induction l with
  | nil =>
    intro m0 p0
    simp [maxPairDisp]
  | cons x xs ih =>
    intro m0 p0
    rw [List.foldl_cons, maxPairDisp_cons]
    by_cases hdm : m0 < pairDisp prevOrder x
    · rw [show primStep prevOrder (m0, p0) x = (pairDisp prevOrder x, some x.2) from
        if_pos hdm]
      rw [ih]
      have hm0 : m0 < max (pairDisp prevOrder x) (maxPairDisp prevOrder xs) := by omega
      rw [if_pos hm0]
      by_cases hM : pairDisp prevOrder x < maxPairDisp prevOrder xs
      · have hmax : max (pairDisp prevOrder x) (maxPairDisp prevOrder xs) =
            maxPairDisp prevOrder xs := by omega
        have hfind : List.find?
            (fun p => pairDisp prevOrder p ==
              max (pairDisp prevOrder x) (maxPairDisp prevOrder xs)) (x :: xs) =
            List.find? (fun p => pairDisp prevOrder p ==
              max (pairDisp prevOrder x) (maxPairDisp prevOrder xs)) xs :=
          List.find?_cons_of_neg xs (by simp; omega)
        rw [if_pos hM, hfind, hmax, show max m0 (maxPairDisp prevOrder xs) =
          maxPairDisp prevOrder xs by omega]
      · have hmax : max (pairDisp prevOrder x) (maxPairDisp prevOrder xs) =
            pairDisp prevOrder x := by omega
        have hfind : List.find?
            (fun p => pairDisp prevOrder p ==
              max (pairDisp prevOrder x) (maxPairDisp prevOrder xs)) (x :: xs) =
            some x :=
          List.find?_cons_of_pos xs (by simp [hmax])
        rw [if_neg hM, hfind, show max m0 (max (pairDisp prevOrder x)
          (maxPairDisp prevOrder xs)) = pairDisp prevOrder x by omega, hmax]
        rfl
    · rw [show primStep prevOrder (m0, p0) x = (m0, p0) from if_neg hdm]
      rw [ih]
      have hxm : pairDisp prevOrder x ≤ m0 := Nat.le_of_not_lt hdm
      by_cases hm : m0 < maxPairDisp prevOrder xs
      · have hm0 : m0 < max (pairDisp prevOrder x) (maxPairDisp prevOrder xs) := by omega
        have hmax : max (pairDisp prevOrder x) (maxPairDisp prevOrder xs) =
            maxPairDisp prevOrder xs := by omega
        have hfind : List.find?
            (fun p => pairDisp prevOrder p ==
              max (pairDisp prevOrder x) (maxPairDisp prevOrder xs)) (x :: xs) =
            List.find? (fun p => pairDisp prevOrder p ==
              max (pairDisp prevOrder x) (maxPairDisp prevOrder xs)) xs :=
          List.find?_cons_of_neg xs (by simp; omega)
        rw [if_pos hm, if_pos hm0, hfind, hmax]
      · have hm0 : ¬ m0 < max (pairDisp prevOrder x) (maxPairDisp prevOrder xs) := by omega
        rw [if_neg hm, if_neg hm0, show max m0 (max (pairDisp prevOrder x)
          (maxPairDisp prevOrder xs)) = max m0 (maxPairDisp prevOrder xs) by omega]

/-- The first find? hit on an enumerated suffix has the least index among
all hits: enumFrom indices only grow along the list. -/
theorem find?_enumFrom_min (q : Nat × String → Bool) :
    ∀ (l : List String) (n : Nat) (x : Nat × String),
      (List.enumFrom n l).find? q = some x →
      ∀ y ∈ List.enumFrom n l, q y = true → x.1 ≤ y.1 := by
  intro l
  induction l with
  | nil => intro n x hx; simp at hx
  | cons a as ih =>
    intro n x hx y hy hqy
    rw [List.enumFrom_cons] at hx hy
    by_cases hqa : q (n, a) = true
    · rw [List.find?_cons_of_pos _ hqa] at hx
      cases hx
      rcases List.mem_cons.mp hy with rfl | hys
      · exact le_refl _
      · exact le_trans (Nat.le_succ n) (List.mem_enumFrom hys).1
    · rw [List.find?_cons_of_neg _ (by simpa using hqa)] at hx
      rcases List.mem_cons.mp hy with rfl | hys
      · exact absurd hqy hqa
      · exact ih (n + 1) x hx y hys hqy

/-- On a duplicate-free list, the entry at index j is x exactly when j is
the index of x. -/
theorem getElem?_indexOf_iff {l : List String} (hp : l.Nodup) {x : String}
    (hm : x ∈ l) (j : Nat) : l[j]? = some x ↔ List.indexOf x l = j := by
  constructor
  · intro h
    obtain ⟨hlt, hEq⟩ := List.getElem?_eq_some.mp h
    have := List.indexOf_getElem hp j hlt
    rw [hEq] at this
    exact this
  · rintro rfl
    rw [List.getElem?_eq_getElem (List.indexOf_lt_length.mpr hm), List.getElem_indexOf]

/-- The enumerated pair of a member of a duplicate-free list. -/
theorem mem_enum_of_mem {currOrder : List String} {id : String} (hm : id ∈ currOrder) :
    (List.indexOf id currOrder, id) ∈ currOrder.enum :=
  List.mem_enum_iff_getElem?.mpr
    (by rw [List.getElem?_eq_getElem (List.indexOf_lt_length.mpr hm), List.getElem_indexOf])

/-- On enumerated entries of the current order whose id is also in the
previous order, the forEach displacement equals the indexOf-stated
displacement. -/
theorem pairDisp_enum (prevOrder currOrder : List String) (hc : currOrder.Nodup)
    {p : Nat × String} (hpe : p ∈ currOrder.enum) (hm : p.2 ∈ prevOrder) :
    pairDisp prevOrder p = displacement prevOrder currOrder p.2 := by
  have h1 : currOrder[p.1]? = some p.2 := List.mem_enum_iff_getElem?.mp hpe
  have hmc : p.2 ∈ currOrder := by
    obtain ⟨hlt, hEq⟩ := List.getElem?_eq_some.mp h1
    exact hEq ▸ List.getElem_mem hlt
  have hidxc : List.indexOf p.2 currOrder = p.1 := (getElem?_indexOf_iff hc hmc p.1).mp h1
  rw [pairDisp, displacement, jsIndexOf_of_mem hm, hidxc]

/-- Membership in the moved filter of the diff effect, for ids present in
the previous order: exactly the ids whose index changed. -/
theorem mem_movedList_iff (prevOrder currOrder : List String)
    (hp : prevOrder.Nodup) (hc : currOrder.Nodup) (id : String) (hm : id ∈ prevOrder) :
    id ∈ ((currOrder.enum.filter
        (fun p => decide (¬ prevOrder[p.1]? = some p.2))).map (fun p => p.2)) ↔
      (id ∈ currOrder ∧ ¬ List.indexOf id prevOrder = List.indexOf id currOrder) := by
  simp only [List.mem_map, List.mem_filter, decide_eq_true_eq]
  constructor
  · rintro ⟨p, ⟨hpe, hpne⟩, rfl⟩
    have h1 : currOrder[p.1]? = some p.2 := List.mem_enum_iff_getElem?.mp hpe
    have hmc : p.2 ∈ currOrder := by
      obtain ⟨hlt, hEq⟩ := List.getElem?_eq_some.mp h1
      exact hEq ▸ List.getElem_mem hlt
    have hidxc : List.indexOf p.2 currOrder = p.1 := (getElem?_indexOf_iff hc hmc p.1).mp h1
    refine ⟨hmc, fun hcon => hpne ?_⟩
    rw [getElem?_indexOf_iff hp hm p.1]
    rw [← hcon] at hidxc
    exact hidxc
  · rintro ⟨hmc, hne⟩
    refine ⟨(List.indexOf id currOrder, id), ⟨mem_enum_of_mem hmc, ?_⟩, rfl⟩
    intro hcon
    exact hne ((getElem?_indexOf_iff hp hm _).mp hcon)

/-- In the pure-reorder branch (nothing removed, nothing added, non-empty
previous snapshot) the diff emits the filter-detected moved ids and the
forEach-selected primary moved id. -/
theorem diffEffect_moved_branch (prevJobs jobs : List Job) (s : ListState)
    (h0 : removedIds prevJobs jobs = []) (h1 : addedIds prevJobs jobs = [])
    (h2 : 0 < prevJobs.length) :
    (diffEffect prevJobs jobs s).2.moved =
        ((jobIds jobs).enum.filter
          (fun p => decide (¬ (jobIds prevJobs)[p.1]? = some p.2))).map (fun p => p.2) ∧
      (diffEffect prevJobs jobs s).2.primaryMovedId =
        ((jobIds jobs).enum.foldl (primStep (jobIds prevJobs)) (0, none)).2 := by
  constructor <;>
  · simp only [diffEffect, h0, h1, List.length_nil]
    rw [if_neg (by omega), if_neg (by omega), if_pos ⟨by trivial, by trivial, h2⟩]

/-- C4: on a permutation transition (same duplicate-free id set, non-empty
previous snapshot), the moved set is exactly the ids whose index changed,
and when the orders differ the primary moved id exists, is itself moved,
has maximal index displacement, and among equal displacements sits
earliest in the current order. -/
theorem C4_moved_and_primary (prevJobs jobs : List Job) (s : ListState)
    (hnd : (jobIds prevJobs).Nodup)
    (hperm : (jobIds prevJobs).Perm (jobIds jobs))
    (hne : prevJobs ≠ []) :
    (∀ id, id ∈ (diffEffect prevJobs jobs s).2.moved ↔
        (id ∈ jobIds jobs ∧
          ¬ List.indexOf id (jobIds prevJobs) = List.indexOf id (jobIds jobs))) ∧
      (¬ jobIds prevJobs = jobIds jobs →
        ∃ p, (diffEffect prevJobs jobs s).2.primaryMovedId = some p ∧
          p ∈ (diffEffect prevJobs jobs s).2.moved ∧
          (∀ id ∈ jobIds jobs,
            displacement (jobIds prevJobs) (jobIds jobs) id ≤
              displacement (jobIds prevJobs) (jobIds jobs) p) ∧
          (∀ id ∈ jobIds jobs,
            displacement (jobIds prevJobs) (jobIds jobs) id =
                displacement (jobIds prevJobs) (jobIds jobs) p →
              List.indexOf p (jobIds jobs) ≤ List.indexOf id (jobIds jobs))) := by
  have hndc : (jobIds jobs).Nodup := hperm.nodup hnd
  have hlen : (jobIds prevJobs).length = (jobIds jobs).length := hperm.length_eq
  have h0 : removedIds prevJobs jobs = [] := by
    rw [removedIds, List.dedup_eq_self.mpr hnd]
    simp only [List.dedup_eq_self.mpr hndc]
    rw [List.filter_eq_nil_iff]
    intro a ha
    simp [hperm.subset ha]
  have h1 : addedIds prevJobs jobs = [] := by
    rw [addedIds, List.dedup_eq_self.mpr hndc]
    simp only [List.dedup_eq_self.mpr hnd]
    rw [List.filter_eq_nil_iff]
    intro a ha
    simp [hperm.symm.subset ha]
  have h2 : 0 < prevJobs.length := List.length_pos.mpr hne
  obtain ⟨hmv, hpm⟩ := diffEffect_moved_branch prevJobs jobs s h0 h1 h2
  constructor
  · intro id
    rw [hmv]
    by_cases hic : id ∈ jobIds jobs
    · exact mem_movedList_iff _ _ hnd hndc id (hperm.mem_iff.mpr hic)
    · apply iff_of_false
      · intro hcon
        simp only [List.mem_map, List.mem_filter] at hcon
        obtain ⟨p, ⟨hpe, _⟩, rfl⟩ := hcon
        obtain ⟨hlt, hEq⟩ := List.getElem?_eq_some.mp (List.mem_enum_iff_getElem?.mp hpe)
        exact hic (hEq ▸ List.getElem_mem hlt)
      · exact fun hcon => hic hcon.1
  · intro hdiff
    -- an index where the orders differ yields a positive displacement
    have hne2 : ¬ ∀ n, (jobIds prevJobs)[n]? = (jobIds jobs)[n]? :=
      fun hall => hdiff (List.ext_getElem? hall)
    push_neg at hne2
    obtain ⟨i, hi⟩ := hne2
    have hilt : i < (jobIds jobs).length := by
      by_contra hge
      push_neg at hge
      exact hi ((List.getElem?_eq_none (hlen ▸ hge)).trans
        (List.getElem?_eq_none hge).symm)
    have hidw : (jobIds jobs)[i]? = some ((jobIds jobs)[i]) :=
      List.getElem?_eq_getElem hilt
    have hmemw : (jobIds jobs)[i] ∈ jobIds jobs := List.getElem_mem hilt
    have hmemwp : (jobIds jobs)[i] ∈ jobIds prevJobs := hperm.mem_iff.mpr hmemw
    have hidxcw : List.indexOf ((jobIds jobs)[i]) (jobIds jobs) = i :=
      List.indexOf_getElem hndc i hilt
    have hpnew : ¬ List.indexOf ((jobIds jobs)[i]) (jobIds prevJobs) = i := by
      intro hEq
      apply hi
      rw [(getElem?_indexOf_iff hnd hmemwp i).mpr hEq, hidw]
    have hdispw : 0 < displacement (jobIds prevJobs) (jobIds jobs)
        ((jobIds jobs)[i]) := by
      rw [displacement, hidxcw, Int.natAbs_pos]
      intro hz
      apply hpnew
      omega
    have hpairw := mem_enum_of_mem hmemw
    have hM0 : 0 < maxPairDisp (jobIds prevJobs) ((jobIds jobs).enum) := by
      have hle := le_maxPairDisp (jobIds prevJobs) hpairw
      have hpd : pairDisp (jobIds prevJobs)
          (List.indexOf ((jobIds jobs)[i]) (jobIds jobs), (jobIds jobs)[i]) =
            displacement (jobIds prevJobs) (jobIds jobs) ((jobIds jobs)[i]) :=
        pairDisp_enum (jobIds prevJobs) (jobIds jobs) hndc hpairw hmemwp
      rw [hpd] at hle
      omega
    -- the fold selects the first entry attaining the maximum
    have hpm2 : (diffEffect prevJobs jobs s).2.primaryMovedId =
        ((jobIds jobs).enum.find? (fun p => pairDisp (jobIds prevJobs) p ==
          maxPairDisp (jobIds prevJobs) ((jobIds jobs).enum))).map (fun p => p.2) := by
      rw [hpm, foldl_primStep_eq]
      simp [hM0]
    have hl_ne : (jobIds jobs).enum ≠ [] := by
      apply List.length_pos.mp
      rw [List.enum_length]
      omega
    obtain ⟨pf, hpf_mem, hpf_disp⟩ :=
      maxPairDisp_attained (jobIds prevJobs) ((jobIds jobs).enum) hl_ne
    have hfind : ∃ x, ((jobIds jobs).enum.find? (fun p => pairDisp (jobIds prevJobs) p ==
        maxPairDisp (jobIds prevJobs) ((jobIds jobs).enum))) = some x := by
      cases hf : ((jobIds jobs).enum.find? (fun p => pairDisp (jobIds prevJobs) p ==
          maxPairDisp (jobIds prevJobs) ((jobIds jobs).enum))) with
      | some x => exact ⟨x, rfl⟩
      | none =>
        exact absurd (by simp [hpf_disp] : (fun p => pairDisp (jobIds prevJobs) p ==
            maxPairDisp (jobIds prevJobs) ((jobIds jobs).enum)) pf = true)
          (by simpa using List.find?_eq_none.mp hf pf hpf_mem)
    obtain ⟨pfound, hfound⟩ := hfind
    have hqf : pairDisp (jobIds prevJobs) pfound =
        maxPairDisp (jobIds prevJobs) ((jobIds jobs).enum) := by
      have := List.find?_some hfound
      simpa using this
    have hfmem := List.mem_of_find?_eq_some hfound
    have h1f : (jobIds jobs)[pfound.1]? = some pfound.2 :=
      List.mem_enum_iff_getElem?.mp hfmem
    have hfc : pfound.2 ∈ jobIds jobs := by
      obtain ⟨hlt, hEq⟩ := List.getElem?_eq_some.mp h1f
      exact hEq ▸ List.getElem_mem hlt
    have hfp : pfound.2 ∈ jobIds prevJobs := hperm.mem_iff.mpr hfc
    have hidxf : List.indexOf pfound.2 (jobIds jobs) = pfound.1 :=
      (getElem?_indexOf_iff hndc hfc _).mp h1f
    have hdispf : displacement (jobIds prevJobs) (jobIds jobs) pfound.2 =
        maxPairDisp (jobIds prevJobs) ((jobIds jobs).enum) := by
      rw [← pairDisp_enum (jobIds prevJobs) (jobIds jobs) hndc hfmem hfp, hqf]
    refine ⟨pfound.2, ?_, ?_, ?_, ?_⟩
    · rw [hpm2, hfound]
      rfl
    · rw [hmv, mem_movedList_iff (jobIds prevJobs) (jobIds jobs) hnd hndc pfound.2 hfp]
      refine ⟨hfc, fun hEq => ?_⟩
      rw [displacement, hEq] at hdispf
      simp at hdispf
      omega
    · intro id hidc
      have hidp : id ∈ jobIds prevJobs := hperm.mem_iff.mpr hidc
      have hpair := mem_enum_of_mem hidc
      have hle := le_maxPairDisp (jobIds prevJobs) hpair
      have hpd : pairDisp (jobIds prevJobs) (List.indexOf id (jobIds jobs), id) =
          displacement (jobIds prevJobs) (jobIds jobs) id :=
        pairDisp_enum (jobIds prevJobs) (jobIds jobs) hndc hpair hidp
      rw [hpd] at hle
      rw [hdispf]
      exact hle
    · intro id hidc hdeq
      have hidp : id ∈ jobIds prevJobs := hperm.mem_iff.mpr hidc
      have hpair := mem_enum_of_mem hidc
      have hqy : (fun p => pairDisp (jobIds prevJobs) p ==
          maxPairDisp (jobIds prevJobs) ((jobIds jobs).enum))
            (List.indexOf id (jobIds jobs), id) = true := by
        show (pairDisp (jobIds prevJobs) (List.indexOf id (jobIds jobs), id) ==
          maxPairDisp (jobIds prevJobs) ((jobIds jobs).enum)) = true
        have hpd : pairDisp (jobIds prevJobs) (List.indexOf id (jobIds jobs), id) =
            displacement (jobIds prevJobs) (jobIds jobs) id :=
          pairDisp_enum (jobIds prevJobs) (jobIds jobs) hndc hpair hidp
        rw [hpd, hdeq, hdispf]
        simp
      have henum : (jobIds jobs).enum = List.enumFrom 0 (jobIds jobs) := rfl
      have hmin := find?_enumFrom_min
        (fun p => pairDisp (jobIds prevJobs) p ==
          maxPairDisp (jobIds prevJobs) ((jobIds jobs).enum))
        (jobIds jobs) 0 pfound (henum ▸ hfound)
        (List.indexOf id (jobIds jobs), id) (henum ▸ hpair) hqy
      rw [hidxf]
      exact hmin

/-- C4 witness: on the rotation [a, b, c] to [b, c, a] every id changed
index, and job a (displacement 2, the maximum) is selected as the primary
moved id. -/
theorem C4_witness :
    ((jobIds [jA, jB, jC]).Nodup ∧
        (jobIds [jA, jB, jC]).Perm (jobIds [jB, jC, jA]) ∧
        ([jA, jB, jC] : List Job) ≠ []) ∧
      ((∀ id, id ∈ (diffEffect [jA, jB, jC] [jB, jC, jA] initListState).2.moved ↔
          (id ∈ jobIds [jB, jC, jA] ∧
            ¬ List.indexOf id (jobIds [jA, jB, jC]) =
              List.indexOf id (jobIds [jB, jC, jA]))) ∧
        (¬ jobIds [jA, jB, jC] = jobIds [jB, jC, jA] →
          ∃ p, (diffEffect [jA, jB, jC] [jB, jC, jA] initListState).2.primaryMovedId =
              some p ∧
            p ∈ (diffEffect [jA, jB, jC] [jB, jC, jA] initListState).2.moved ∧
            (∀ id ∈ jobIds [jB, jC, jA],
              displacement (jobIds [jA, jB, jC]) (jobIds [jB, jC, jA]) id ≤
                displacement (jobIds [jA, jB, jC]) (jobIds [jB, jC, jA]) p) ∧
            (∀ id ∈ jobIds [jB, jC, jA],
              displacement (jobIds [jA, jB, jC]) (jobIds [jB, jC, jA]) id =
                  displacement (jobIds [jA, jB, jC]) (jobIds [jB, jC, jA]) p →
                List.indexOf p (jobIds [jB, jC, jA]) ≤
                  List.indexOf id (jobIds [jB, jC, jA])))) :=
  ⟨⟨by decide, by decide, by decide⟩,
    C4_moved_and_primary [jA, jB, jC] [jB, jC, jA] initListState
      (by decide) (by decide) (by decide)⟩

end JobSearch
